import Mathlib

/-!
Shallow embedding of the core of `business_finder` (`src/main.py`) and proofs
about it.  Strings are modelled as `List Char`; machine integers as `Int`/`Nat`;
the IEEE-754 double arithmetic of `_calculate_timeout` is modelled exactly by
integer round-to-nearest-even arithmetic; the external Google services are
modelled as explicit oracle parameters.
-/

namespace BF

/-! ### Python string helpers -/

/-- Characters removed by Python's `str.strip()`: exactly the code points
for which CPython's `Py_UNICODE_ISSPACE` holds (ASCII whitespace, the
C0 separators 0x1C-0x1F, NEL, NBSP, and the Unicode space separators). -/
def isPySpace (c : Char) : Bool :=
  let n := c.toNat
  (0x9 ≤ n && n ≤ 0xd) || (0x1c ≤ n && n ≤ 0x20) || n = 0x85 || n = 0xa0 ||
  n = 0x1680 || (0x2000 ≤ n && n ≤ 0x200a) || n = 0x2028 || n = 0x2029 ||
  n = 0x202f || n = 0x205f || n = 0x3000

/-- Model of Python `str.strip()`: drop leading and trailing whitespace. -/
def pyStrip (l : List Char) : List Char :=
  ((l.dropWhile isPySpace).reverse.dropWhile isPySpace).reverse

/-- Characters matched by Python's `\d` on `str` patterns: exactly the
Unicode decimal digits (general category Nd), as a range table over the
code point. -/
def isPyDigit (c : Char) : Bool :=
  let n := c.toNat
  (0x30 ≤ n && n ≤ 0x39) || (0x660 ≤ n && n ≤ 0x669) || (0x6f0 ≤ n && n ≤ 0x6f9) ||
  (0x7c0 ≤ n && n ≤ 0x7c9) || (0x966 ≤ n && n ≤ 0x96f) || (0x9e6 ≤ n && n ≤ 0x9ef) ||
  (0xa66 ≤ n && n ≤ 0xa6f) || (0xae6 ≤ n && n ≤ 0xaef) || (0xb66 ≤ n && n ≤ 0xb6f) ||
  (0xbe6 ≤ n && n ≤ 0xbef) || (0xc66 ≤ n && n ≤ 0xc6f) || (0xce6 ≤ n && n ≤ 0xcef) ||
  (0xd66 ≤ n && n ≤ 0xd6f) || (0xde6 ≤ n && n ≤ 0xdef) || (0xe50 ≤ n && n ≤ 0xe59) ||
  (0xed0 ≤ n && n ≤ 0xed9) || (0xf20 ≤ n && n ≤ 0xf29) || (0x1040 ≤ n && n ≤ 0x1049) ||
  (0x1090 ≤ n && n ≤ 0x1099) || (0x17e0 ≤ n && n ≤ 0x17e9) || (0x1810 ≤ n && n ≤ 0x1819) ||
  (0x1946 ≤ n && n ≤ 0x194f) || (0x19d0 ≤ n && n ≤ 0x19d9) || (0x1a80 ≤ n && n ≤ 0x1a89) ||
  (0x1a90 ≤ n && n ≤ 0x1a99) || (0x1b50 ≤ n && n ≤ 0x1b59) || (0x1bb0 ≤ n && n ≤ 0x1bb9) ||
  (0x1c40 ≤ n && n ≤ 0x1c49) || (0x1c50 ≤ n && n ≤ 0x1c59) || (0xa620 ≤ n && n ≤ 0xa629) ||
  (0xa8d0 ≤ n && n ≤ 0xa8d9) || (0xa900 ≤ n && n ≤ 0xa909) || (0xa9d0 ≤ n && n ≤ 0xa9d9) ||
  (0xa9f0 ≤ n && n ≤ 0xa9f9) || (0xaa50 ≤ n && n ≤ 0xaa59) || (0xabf0 ≤ n && n ≤ 0xabf9) ||
  (0xff10 ≤ n && n ≤ 0xff19) || (0x104a0 ≤ n && n ≤ 0x104a9) || (0x10d30 ≤ n && n ≤ 0x10d39) ||
  (0x11066 ≤ n && n ≤ 0x1106f) || (0x110f0 ≤ n && n ≤ 0x110f9) || (0x11136 ≤ n && n ≤ 0x1113f) ||
  (0x111d0 ≤ n && n ≤ 0x111d9) || (0x112f0 ≤ n && n ≤ 0x112f9) || (0x11450 ≤ n && n ≤ 0x11459) ||
  (0x114d0 ≤ n && n ≤ 0x114d9) || (0x11650 ≤ n && n ≤ 0x11659) || (0x116c0 ≤ n && n ≤ 0x116c9) ||
  (0x11730 ≤ n && n ≤ 0x11739) || (0x118e0 ≤ n && n ≤ 0x118e9) || (0x11950 ≤ n && n ≤ 0x11959) ||
  (0x11c50 ≤ n && n ≤ 0x11c59) || (0x11d50 ≤ n && n ≤ 0x11d59) || (0x11da0 ≤ n && n ≤ 0x11da9) ||
  (0x16a60 ≤ n && n ≤ 0x16a69) || (0x16ac0 ≤ n && n ≤ 0x16ac9) || (0x16b50 ≤ n && n ≤ 0x16b59) ||
  (0x1d7ce ≤ n && n ≤ 0x1d7ff) || (0x1e140 ≤ n && n ≤ 0x1e149) || (0x1e2f0 ≤ n && n ≤ 0x1e2f9) ||
  (0x1e950 ≤ n && n ≤ 0x1e959) || (0x1fbf0 ≤ n && n ≤ 0x1fbf9)

def allDigits (l : List Char) : Bool := l.all isPyDigit

/-! ### `validate_postal_code` (src/main.py lines 145-151)

The US pattern is `^\d{5}(-\d{4})?$`, the other pattern `^\d{6}$`, applied
with `re.match`.  Two Python behaviours are modelled exactly: `\d` matches
every Unicode decimal digit (category Nd, see `isPyDigit`), and `$` (without
`re.MULTILINE`) matches at the end of the string *or just before a newline
at the end of the string*, so a single trailing `'\n'` is accepted by both
patterns. -/

/-- Matcher for the body of `^\d{5}(-\d{4})?$` (without the `$` quirk). -/
def usCore (l : List Char) : Bool :=
  let d5 := l.take 5
  let rest := l.drop 5
  d5.length = 5 && allDigits d5 &&
    (rest.isEmpty ||
      (rest.length = 5 && rest.head? = some '-' && allDigits (rest.drop 1)))

/-- Matcher for the body of `^\d{6}$` (without the `$` quirk). -/
def inCore (l : List Char) : Bool := l.length = 6 && allDigits l

/-- Python `re.match` of a fully anchored pattern `^...$`: the core pattern
must match the whole string, or the whole string minus one final newline. -/
def pyMatchDollar (core : List Char → Bool) (l : List Char) : Bool :=
  core l || (l.getLast? = some '\n' && core l.dropLast)

/-- Model of `BusinessFinder.validate_postal_code` (src/main.py 145-151). -/
def validate_postal_code (postal : List Char) (country : List Char) : Bool :=
  if country = ['U', 'S'] then pyMatchDollar usCore postal
  else pyMatchDollar inCore postal

/-- Declarative statement of the US postal format: exactly 5 decimal
digits (Unicode Nd, the class Python's `\d` matches), optionally followed
by a hyphen and 4 decimal digits. -/
def SpecUS (l : List Char) : Prop :=
  (l.length = 5 ∧ ∀ c ∈ l, isPyDigit c = true) ∨
  (∃ a b, l = a ++ '-' :: b ∧ a.length = 5 ∧ b.length = 4 ∧
    (∀ c ∈ a, isPyDigit c = true) ∧ (∀ c ∈ b, isPyDigit c = true))

/-- Declarative statement of the 6-digit-exact format: exactly 6 decimal
digits (Unicode Nd). -/
def SpecIN (l : List Char) : Prop :=
  l.length = 6 ∧ ∀ c ∈ l, isPyDigit c = true

/-! ### `_sanitize_sheet_name` (src/main.py lines 153-163) -/

/-- Characters of the class `[\\*?/\[\]:]` replaced by `_`. -/
def isIllegalSheetChar (c : Char) : Bool :=
  c = '\\' || c = '*' || c = '?' || c = '/' || c = '[' || c = ']' || c = ':'

/-- The `re.sub` replacing every illegal character with an underscore. -/
def replaceIllegal (l : List Char) : List Char :=
  l.map fun c => if isIllegalSheetChar c then '_' else c

def digitChar (n : Nat) : Char := Char.ofNat (48 + n % 10)

/-- Two-digit decimal rendering of `n % 100`, as produced by `%H`/`%M`/`%S`. -/
def twoDigits (n : Nat) : List Char := [digitChar (n / 10 % 10), digitChar (n % 10)]

/-- Model of `datetime.now().strftime("_%H%M%S")` at a time of `t` seconds
since midnight: an underscore followed by six decimal digits. -/
def timeSuffix (t : Nat) : List Char :=
  '_' :: (twoDigits (t / 3600 % 24) ++ twoDigits (t / 60 % 60) ++ twoDigits (t % 60))

/-- Google Sheets maximum sheet-name length (`SHEET_NAME_MAX_LENGTH`). -/
def SHEET_NAME_MAX_LENGTH : Nat := 100

/-- Model of `BusinessFinder._sanitize_sheet_name` (src/main.py 153-163); `t`
is the wall-clock time used for the truncation suffix. -/
def sanitize_sheet_name (t : Nat) (name : List Char) : List Char :=
  let n := replaceIllegal name
  if SHEET_NAME_MAX_LENGTH < n.length then
    n.take (SHEET_NAME_MAX_LENGTH - 10) ++ timeSuffix t
  else n

/-! ### `_calculate_timeout` (src/main.py lines 200-210)

The source computes `int((max_results / 20) * 60)` in Python, i.e. with two
IEEE-754 double roundings (the division and the multiplication), then caps the
result at 300.  The double arithmetic is modelled exactly: a positive double
is a pair `(k, t)` standing for `k * 2^t`, and each operation result is
rounded to 53 significant bits with round-half-to-even. -/

/-- Number of binary digits of `n`; the first argument is fuel (`n` itself
suffices). -/
def bitLenAux : Nat → Nat → Nat
  | 0, _ => 0
  | fuel + 1, n => if n = 0 then 0 else bitLenAux fuel (n / 2) + 1

def bitLen (n : Nat) : Nat := bitLenAux n n

/-- Decide `2^L ≤ a / b` for naturals `a b` and an integer `L`. -/
def qpowLe (L : Int) (a b : Nat) : Bool :=
  if 0 ≤ L then b * 2 ^ L.toNat ≤ a else b ≤ a * 2 ^ (-L).toNat

/-- Floor of the base-2 logarithm of the positive rational `a / b`. -/
def flog2 (a b : Nat) : Int :=
  let L : Int := (bitLen a : Int) - (bitLen b : Int)
  if qpowLe L a b then L else L - 1

/-- Round the rational `a / b` (with `b > 0`) to the nearest integer, ties to
even — the rounding used by IEEE-754 double arithmetic. -/
def rheN (a b : Nat) : Nat :=
  let f := a / b
  let r2 := 2 * (a % b)
  if r2 < b then f else if b < r2 then f + 1 else if f % 2 = 0 then f else f + 1

/-- The rational `(a / b) * 2^p` written as a numerator/denominator pair. -/
def shiftNum (a b : Nat) (p : Int) : Nat × Nat :=
  if 0 ≤ p then (a * 2 ^ p.toNat, b) else (a, b * 2 ^ (-p).toNat)

/-- Round the positive rational `a / b` to the nearest IEEE-754 double,
returned as a mantissa/exponent pair `(k, t)` standing for `k * 2^t`. -/
def rdN (a b : Nat) : Nat × Int :=
  if a = 0 then (0, 0) else
  let e := flog2 a b
  let s := shiftNum a b (52 - e)
  (rheN s.1 s.2, e - 52)

/-- Truncation of the nonnegative value `k * 2^t` to an integer, as Python's
`int()` does on a nonnegative float. -/
def truncScaled (k : Nat) (t : Int) : Nat :=
  if 0 ≤ t then k * 2 ^ t.toNat else k / 2 ^ (-t).toNat

/-- Exact value of `int((m / 20) * 60)` computed by Python double arithmetic
for a positive integer `m`. -/
def pyScaledTimeout (m : Nat) : Nat :=
  let d := rdN m 20
  let p := shiftNum (d.1 * 60) 1 d.2
  let r := rdN p.1 p.2
  truncScaled r.1 r.2

/-- Default and bound constants from `BusinessFinder.__init__`. -/
def DEFAULT_MAX_RESULTS : Int := 20
def MAX_ALLOWED_RESULTS : Int := 100
def BASE_SEARCH_TIMEOUT : Int := 60
def MAX_SEARCH_TIMEOUT : Int := 300

/-- Model of `BusinessFinder._calculate_timeout` (src/main.py 200-210).
`none` models Python `None`; `if not max_results or max_results <= 0` makes
`None`, `0` and negative values fall back to `DEFAULT_MAX_RESULTS`.  (For
arguments at or above roughly `2^1030` the Python division would raise
`OverflowError`; such values cannot reach this function in the program, whose
only call site first caps the argument at 100.) -/
def calculate_timeout (max_results : Option Int) : Int :=
  let m : Int := match max_results with
    | none => DEFAULT_MAX_RESULTS
    | some v => if v ≤ 0 then DEFAULT_MAX_RESULTS else v
  min (pyScaledTimeout m.toNat : Int) MAX_SEARCH_TIMEOUT

/-! ### The search pipeline (src/main.py lines 212-343)

External services are an explicit oracle record.  The worker body
`search_task` (lines 224-300) is a pure data path here; the deadline
behaviour of the surrounding controller (lines 302-318) is modelled
separately below by `searchControllerReturn`. -/

structure GeoLocation where
  lat : Int
  lng : Int
deriving DecidableEq, Repr

/-- Fields returned by the place-details service; `none` models a missing
key in the response dictionary. -/
structure PlaceDetails where
  name : Option String
  formatted_address : Option String
  formatted_phone_number : Option String
  website : Option String
  url : Option String
  business_status : Option String
deriving DecidableEq, Repr

/-- Oracle for the external services consumed by one search task.
`geocode` returns the candidate list of the geocoding call; `places` returns
`none` when the place-search call raises (the keyword is then skipped);
`placeDetails` returns `none` when the details call raises (the place is then
skipped); `extractEmail` is the result of `_extract_email` on a website. -/
structure SearchEnv where
  geocode : List Char → List GeoLocation
  places : List Char → GeoLocation → Option (List String)
  placeDetails : String → Option PlaceDetails
  extractEmail : String → String

/-- One business record as assembled at src/main.py lines 266-281. -/
structure BusinessRecord where
  name : String
  address : String
  phone : String
  website : String
  email : String
  google_maps_url : String
  business_status : String
  postal_code : List Char
  keyword : List Char
deriving DecidableEq, Repr

/-- Python `lst[:n]` for an `Int` bound: a negative `n` drops `-n` elements
from the end. -/
def pySliceTo (n : Int) (l : List α) : List α :=
  if 0 ≤ n then l.take n.toNat else l.take (l.length - (-n).toNat)

/-- Chunking as done by `range(0, len(places), chunk_size)` (line 256); the
first argument is fuel, for which the list length suffices since the chunk
size is always at least 2. -/
def chunksOfAux (n : Nat) : Nat → List α → List (List α)
  | 0, _ => []
  | _, [] => []
  | fuel + 1, x :: xs => (x :: xs).take n :: chunksOfAux n fuel ((x :: xs).drop n)

def chunksOf (n : Nat) (l : List α) : List (List α) := chunksOfAux n l.length l

/-- The `location_query` string of line 228. -/
def locationQuery (postal : List Char) (country : List Char) : List Char :=
  postal ++ (if country = ['U', 'S'] then ", United States".toList else ", India".toList)

/-- Record assembly of lines 266-281; the email is scraped only when the
`website` field is present and truthy (non-empty). -/
def mkBusinessInfo (env : SearchEnv) (d : PlaceDetails) (postal kw : List Char) :
    BusinessRecord where
  name := d.name.getD ""
  address := d.formatted_address.getD ""
  phone := d.formatted_phone_number.getD ""
  website := d.website.getD ""
  email := match d.website with
    | some w => if w = "" then "" else env.extractEmail w
    | none => ""
  google_maps_url := d.url.getD ""
  business_status := d.business_status.getD ""
  postal_code := postal
  keyword := kw

/-- Model of the worker body `search_task` (src/main.py 224-300): the records
appended and the `error_message` set.  A geocode result without candidates
sets the error message and produces no records; a failing place-search call
or details call is skipped at keyword / place granularity. -/
def search_task (env : SearchEnv) (postal : List Char) (keywords : List (List Char))
    (country : List Char) (max_results : Int) :
    List BusinessRecord × Option (List Char) :=
  match env.geocode (locationQuery postal country) with
  | [] => ([], some ("Could not find location for ".toList ++ locationQuery postal country))
  | loc :: _ =>
    let recs := (keywords.map fun kw =>
      match env.places (kw ++ " in ".toList ++ postal) loc with
      | none => []
      | some placesResult =>
        let places := pySliceTo max_results placesResult
        let chunkSize := (min 5 (max 2 (Int.fdiv max_results 10))).toNat
        ((chunksOf chunkSize places).map fun chunk =>
          chunk.filterMap fun pid =>
            (env.placeDetails pid).map fun d => mkBusinessInfo env d postal kw).flatten).flatten
    (recs, none)

/-- Effective max-results as set at src/main.py line 218:
`min(max_results or DEFAULT_MAX_RESULTS, MAX_ALLOWED_RESULTS)`.  Python `or`
replaces `None` and `0` (falsy) with the default but keeps negative values. -/
def effectiveMaxResults (max_results : Option Int) : Int :=
  min (match max_results with
        | none => DEFAULT_MAX_RESULTS
        | some v => if v = 0 then DEFAULT_MAX_RESULTS else v)
      MAX_ALLOWED_RESULTS

/-- Data path of `_search_with_timeout` (src/main.py 212-318) when the worker
runs to completion: clamp max-results, run the task, return its record list
(a geocode failure leaves only the printed error message and returns `[]`).
The deadline semantics of the controller is modelled by
`searchControllerReturn` below. -/
def search_with_timeout (env : SearchEnv) (postal : List Char)
    (keywords : List (List Char)) (country : List Char) (max_results : Option Int) :
    List BusinessRecord :=
  (search_task env postal keywords country (effectiveMaxResults max_results)).1

/-- Error message of src/main.py line 328. -/
def invalidCodeMsg (country : List Char) (code : List Char) : List Char :=
  (if country = ['U', 'S'] then "Invalid US postal code: ".toList
   else "Invalid PIN code: ".toList) ++ code

/-- Model of `search_businesses` (src/main.py 320-343), instrumented: the
first component is the function's result — `Except` error for the
`ValueError` raised on a malformed postal code, otherwise the returned record
list paired with the internal `errors` accumulator (which the source does
*not* return; it only prints it, and it only ever receives exceptions raised
by `_search_with_timeout`, not geocoding failures, which are absorbed inside
the task).  The second component instruments which postal codes a search task
was run for. -/
def search_businessesT (env : SearchEnv) (postal_codes : List (List Char))
    (keywords : List (List Char)) (country : List Char) (max_results : Option Int) :
    Except (List Char) (List BusinessRecord × List (List Char)) × List (List Char) :=
  match postal_codes.find? (fun c => !(validate_postal_code (pyStrip c) country)) with
  | some bad => (.error (invalidCodeMsg country bad), [])
  | none =>
    let r := postal_codes.foldl
      (fun (acc : List BusinessRecord × List (List Char) × List (List Char)) c =>
        let c' := pyStrip c
        (acc.1 ++ search_with_timeout env c' keywords country max_results,
         acc.2.1, acc.2.2 ++ [c']))
      ([], [], [])
    (.ok (r.1, r.2.1), r.2.2)

/-! ### `_create_new_sheet` (src/main.py lines 165-198)

The method is wrapped by `@retry(stop=stop_after_attempt(3), ...)` from
tenacity, and on an "already exists" `HttpError` it *recursively calls the
decorated method* with a suffixed name, so every collision starts a fresh
3-attempt budget.  Only non-collision errors consume the tenacity budget of
their own invocation; an error bubbling out of the recursion also counts as a
failed attempt of the outer invocation.  `svc k` is the outcome of the `k`-th
`addSheet` request, `clock k` the wall time at that request, and `fuel`
models Python's recursion limit. -/

inductive CreateOutcome where
  | ok
  | alreadyExists
  | otherError
deriving DecidableEq, Repr

structure CreateRes where
  result : Option (List Char)
  calls : Nat
deriving DecidableEq, Repr

def createGo (svc : Nat → CreateOutcome) (clock : Nat → Nat) :
    Nat → List Char → Nat → Nat → CreateRes
  | 0, _, k, _ => ⟨none, k⟩
  | fuel + 1, nm, k, att =>
    let nm' := sanitize_sheet_name (clock k) nm
    match svc k with
    | .ok => ⟨some nm', k + 1⟩
    | .alreadyExists =>
      let r := createGo svc clock fuel (nm' ++ timeSuffix (clock k)) (k + 1) 3
      match r.result with
      | some n => ⟨some n, r.calls⟩
      | none =>
        if att ≤ 1 then ⟨none, r.calls⟩
        else createGo svc clock fuel nm r.calls (att - 1)
    | .otherError =>
      if att ≤ 1 then ⟨none, k + 1⟩
      else createGo svc clock fuel nm (k + 1) (att - 1)

/-- Model of `BusinessFinder._create_new_sheet`; `now` models the
timestamp-derived default name used when the argument is `None` or empty. -/
def create_new_sheet (svc : Nat → CreateOutcome) (clock : Nat → Nat) (fuel : Nat)
    (now : List Char) (name : Option (List Char)) : CreateRes :=
  createGo svc clock fuel
    (match name with | none => now | some n => if n = [] then now else n) 0 3

/-- Name with which `_create_new_sheet` succeeds after `n` collisions
starting from `nm` at request index `k`: each collision sanitizes the
current name and appends a time suffix (line 195), and the successful
attempt returns its sanitized name. -/
def collidedName (clock : Nat → Nat) : Nat → List Char → Nat → List Char
  | 0, nm, k => sanitize_sheet_name (clock k) nm
  | n + 1, nm, k =>
    collidedName clock n
      (sanitize_sheet_name (clock k) nm ++ timeSuffix (clock k)) (k + 1)

/-! ### `export_to_sheets` (src/main.py lines 373-426) -/

/-- Spreadsheet-service calls observable during an export. -/
inductive SheetCall where
  | create (k : Nat)
  | updateHeader (sheet : List Char)
  | appendRows (sheet : List Char) (rows : Nat)
deriving DecidableEq, Repr

/-- Model of `export_to_sheets`: with an empty record list it returns `None`
immediately (line 375-376); otherwise it creates a sheet (propagating an
exhausted-retry failure as the raised `ValueError`, modelled as `.error`),
then writes the header row and appends the data rows.  The second component
is the trace of spreadsheet-service calls issued. -/
def export_to_sheets (svc : Nat → CreateOutcome) (clock : Nat → Nat) (fuel : Nat)
    (now : List Char) (businesses : List BusinessRecord)
    (sheet_name : Option (List Char)) :
    Except Unit (Option (List Char)) × List SheetCall :=
  if businesses.isEmpty then (.ok none, [])
  else
    let nm0 := sheet_name.getD now
    let r := create_new_sheet svc clock fuel now (some nm0)
    let createCalls := (List.range r.calls).map SheetCall.create
    match r.result with
    | none => (.error (), createCalls)
    | some nm =>
      (.ok (some nm),
        createCalls ++ [SheetCall.updateHeader nm, SheetCall.appendRows nm businesses.length])

/-! ### The deadline controller of `_search_with_timeout` (lines 302-318)

The worker is modelled by its append events `(time, record)` in order and its
finish time.  `future.result(timeout=...)` raises `TimeoutError` when the
worker is still running at the deadline, and the handler's `return result`
returns the worker's *live* buffer — but leaving the `with
ThreadPoolExecutor` block first calls `executor.shutdown(wait=True)`, which
joins the still-running worker, so by the time the caller can read the list
it contains every record the worker ever appended. -/

/-- Records appended strictly before the deadline: the snapshot the spec says
the caller should receive. -/
def snapshotBefore (deadline : Nat) (events : List (Nat × Nat)) : List Nat :=
  (events.filter fun e => e.1 < deadline).map Prod.snd

/-- Value actually produced by the controller (src/main.py 302-318) for a
worker with the given append events and finish time: on the normal path the
full list; on the timeout path either the `return result` at line 312 (when
the pre-deadline snapshot is non-empty) or the fall-through return at line
318 — in both cases the shared list object, read only after the executor
shutdown has joined the worker, hence holding all events. -/
def searchControllerReturn (events : List (Nat × Nat)) (finish deadline : Nat) :
    List Nat :=
  if finish ≤ deadline then events.map Prod.snd
  else if (snapshotBefore deadline events).isEmpty then events.map Prod.snd
  else events.map Prod.snd

/-! ### Proof-side definitions

Rational-valued counterparts of the integer float model, used only inside
proofs, plus concrete service oracles used as test vectors. -/

/-- Round half to even on the rationals. -/
def rheQ (x : ℚ) : ℤ :=
  if x - ⌊x⌋ < 1/2 then ⌊x⌋
  else if 1/2 < x - ⌊x⌋ then ⌊x⌋ + 1
  else if 2 ∣ ⌊x⌋ then ⌊x⌋ else ⌊x⌋ + 1

/-- Rational value of a mantissa/exponent pair. -/
def val (k : Nat) (t : Int) : ℚ := (k : ℚ) * 2 ^ t

/-- Oracle on which every service call fails or returns nothing. -/
def envTrivial : SearchEnv where
  geocode := fun _ => []
  places := fun _ _ => none
  placeDetails := fun _ => none
  extractEmail := fun _ => ""

/-- Oracle for the two-postal-code scenario: geocoding finds nothing for
`00000` and one coordinate for `94105`; the place search returns two
candidates with plain details. -/
def envC2 : SearchEnv where
  geocode := fun q => if q = locationQuery "94105".toList "US".toList
    then [⟨37, -122⟩] else []
  places := fun _ _ => some ["p1", "p2"]
  placeDetails := fun pid =>
    if pid = "p1" then
      some ⟨some "Biz One", some "1 First St", some "555-0100", none, none,
        some "OPERATIONAL"⟩
    else if pid = "p2" then
      some ⟨some "Biz Two", some "2 Second St", none, none, none,
        some "OPERATIONAL"⟩
    else none
  extractEmail := fun _ => ""

/-- Sheet service reporting a name collision on the first three create
requests and succeeding on the fourth. -/
def svcCollide3 : Nat → CreateOutcome :=
  fun k => if k < 3 then .alreadyExists else .ok

/-- Sheet service reporting a name collision on the first two create
requests and succeeding on the third. -/
def svcCollide2 : Nat → CreateOutcome :=
  fun k => if k < 2 then .alreadyExists else .ok

end BF

namespace BF

/-! ### Helper lemmas -/

lemma map_id_of_fixed {l : List Char} {f : Char → Char} (h : ∀ c ∈ l, f c = c) :
    l.map f = l :=
  (List.map_congr_left h).trans (List.map_id l)

lemma replaceIllegal_clean {l : List Char} :
    ∀ c ∈ replaceIllegal l, isIllegalSheetChar c = false := by
  intro c hc
  simp only [replaceIllegal, List.mem_map] at hc
  obtain ⟨a, -, rfl⟩ := hc
  rcases Bool.eq_false_or_eq_true (isIllegalSheetChar a) with h | h
  · simp only [h, if_true]
    decide
  · simp [h]

lemma digitChar_clean (n : Nat) : isIllegalSheetChar (digitChar n) = false := by
  have h : n % 10 < 10 := Nat.mod_lt _ (by norm_num)
  unfold digitChar
  set k := n % 10 with hk
  interval_cases k <;> decide

lemma timeSuffix_clean (t : Nat) :
    ∀ c ∈ timeSuffix t, isIllegalSheetChar c = false := by
  intro c hc
  simp only [timeSuffix, twoDigits, List.cons_append, List.nil_append,
    List.mem_cons, List.not_mem_nil, or_false] at hc
  rcases hc with rfl | rfl | rfl | rfl | rfl | rfl | rfl
  · decide
  all_goals exact digitChar_clean _

lemma timeSuffix_length (t : Nat) : (timeSuffix t).length = 7 := by
  simp [timeSuffix, twoDigits]

lemma sanitize_clean (t : Nat) (name : List Char) :
    ∀ c ∈ sanitize_sheet_name t name, isIllegalSheetChar c = false := by
  intro c hc
  simp only [sanitize_sheet_name] at hc
  by_cases h : SHEET_NAME_MAX_LENGTH < (replaceIllegal name).length
  · rw [if_pos h] at hc
    rcases List.mem_append.mp hc with h1 | h2
    · exact replaceIllegal_clean c (List.mem_of_mem_take h1)
    · exact timeSuffix_clean t c h2
  · rw [if_neg h] at hc
    exact replaceIllegal_clean c hc

lemma sanitize_length (t : Nat) (name : List Char) :
    (sanitize_sheet_name t name).length ≤ SHEET_NAME_MAX_LENGTH := by
  simp only [sanitize_sheet_name]
  by_cases h : SHEET_NAME_MAX_LENGTH < (replaceIllegal name).length
  · rw [if_pos h]
    rw [List.length_append, List.length_take, timeSuffix_length]
    have := Nat.min_le_left (SHEET_NAME_MAX_LENGTH - 10) (replaceIllegal name).length
    unfold SHEET_NAME_MAX_LENGTH at *
    omega
  · rw [if_neg h]
    omega

/-- C8: the output of `_sanitize_sheet_name` contains no illegal character,
never exceeds the configured maximum length (100), and sanitizing a name the
function has already produced (at any later wall-clock time `t2`) returns it
unchanged. -/
theorem C8_sanitize_clean_bounded_idempotent :
    ∀ (name : List Char) (t t2 : Nat),
      (∀ c ∈ sanitize_sheet_name t name, isIllegalSheetChar c = false) ∧
      (sanitize_sheet_name t name).length ≤ SHEET_NAME_MAX_LENGTH ∧
      sanitize_sheet_name t2 (sanitize_sheet_name t name) =
        sanitize_sheet_name t name := by
  intro name t t2
  refine ⟨sanitize_clean t name, sanitize_length t name, ?_⟩
  have h1 : replaceIllegal (sanitize_sheet_name t name) = sanitize_sheet_name t name := by
    apply map_id_of_fixed
    intro c hc
    rw [sanitize_clean t name c hc]
    simp
  show sanitize_sheet_name t2 (sanitize_sheet_name t name) = sanitize_sheet_name t name
  rw [sanitize_sheet_name]
  simp only [h1]
  rw [if_neg (by have := sanitize_length t name; omega)]

/-- C9: exporting an empty record list is a no-op — the result is the empty
handle (`None`), no spreadsheet-service call is made, and no error is
raised. -/
theorem C9_export_empty_noop :
    ∀ (svc : Nat → CreateOutcome) (clock : Nat → Nat) (fuel : Nat)
      (now : List Char) (name : Option (List Char)),
      export_to_sheets svc clock fuel now [] name = (.ok none, []) := by
  intro svc clock fuel now name
  rfl

/-- C4 counterexample: a caller-supplied `max_results = -5` is kept by
`max_results or DEFAULT` (negative numbers are truthy) and passes the upper
`min` untouched, so the task runs with an effective max-results of `-5`,
outside `[1, 100]`. -/
theorem C4_counterexample :
    effectiveMaxResults (some (-5)) = -5 ∧
    ¬ 1 ≤ effectiveMaxResults (some (-5)) := by decide

/-- C4 amended: the effective max-results is bounded above by 100 and
defaults to 20 when the caller omits it or passes 0; every positive value is
clamped only from above (hence at least 1); but a negative caller value
passes through unclamped. -/
theorem C4_amended_effective_max_results :
    (∀ m : Option Int, effectiveMaxResults m ≤ MAX_ALLOWED_RESULTS) ∧
    effectiveMaxResults none = DEFAULT_MAX_RESULTS ∧
    effectiveMaxResults (some 0) = DEFAULT_MAX_RESULTS ∧
    (∀ v : Int, 0 < v →
      1 ≤ effectiveMaxResults (some v) ∧
      effectiveMaxResults (some v) = min v MAX_ALLOWED_RESULTS) ∧
    (∀ v : Int, v < 0 → effectiveMaxResults (some v) = v) := by
  refine ⟨?_, by decide, by decide, ?_, ?_⟩
  · intro m
    simp only [effectiveMaxResults]
    exact min_le_right _ _
  · intro v hv
    simp only [effectiveMaxResults]
    rw [if_neg (by omega : ¬ v = 0)]
    exact ⟨le_min (by omega) (by decide), rfl⟩
  · intro v hv
    simp only [effectiveMaxResults]
    rw [if_neg (by omega : ¬ v = 0)]
    exact min_eq_left (by simp only [MAX_ALLOWED_RESULTS]; omega)

/-- C4 witness: the amended theorem applied at the concrete inputs 7 and
-3. -/
theorem C4_amended_witness :
    (1 ≤ effectiveMaxResults (some 7) ∧
      effectiveMaxResults (some 7) = min 7 MAX_ALLOWED_RESULTS) ∧
    effectiveMaxResults (some (-3)) = -3 :=
  ⟨C4_amended_effective_max_results.2.2.2.1 7 (by decide),
   C4_amended_effective_max_results.2.2.2.2 (-3) (by decide)⟩

/-- C1 (evaluation of the code at the failing input): a worker that appends
records 10 and 20 before a deadline of 10, then appends record 30 at time 50
and finishes at time 60, makes the controller return all three records — the
executor shutdown at the end of the `with` block joins the worker, and the
returned object is the worker's live buffer — whereas the claimed snapshot
semantics would return exactly the two pre-deadline records. -/
theorem C1_controller_observes_post_deadline_records :
    searchControllerReturn [(1, 10), (2, 20), (50, 30)] 60 10 = [10, 20, 30] ∧
    snapshotBefore 10 [(1, 10), (2, 20), (50, 30)] = [10, 20] ∧
    searchControllerReturn [(1, 10), (2, 20), (50, 30)] 60 10 ≠
      snapshotBefore 10 [(1, 10), (2, 20), (50, 30)] := by decide

/-- C6 counterexample: with a service that reports "already exists" on the
first three create requests and succeeds on the fourth, `_create_new_sheet`
does not propagate an error after 3 attempts — every collision recurses into
the freshly decorated method with a new name and a fresh tenacity budget, so
a fourth request is issued and the call succeeds. -/
theorem C6_counterexample :
    (create_new_sheet svcCollide3 (fun _ => 0) 10 "20250101_120000".toList
        (some "Sheet".toList)).result.isSome = true ∧
    (create_new_sheet svcCollide3 (fun _ => 0) 10 "20250101_120000".toList
        (some "Sheet".toList)).calls = 4 := by decide

lemma replaceIllegal_append (a b : List Char) :
    replaceIllegal (a ++ b) = replaceIllegal a ++ replaceIllegal b :=
  List.map_append _ a b

lemma replaceIllegal_timeSuffix (t : Nat) :
    replaceIllegal (timeSuffix t) = timeSuffix t :=
  map_id_of_fixed fun c hc => by rw [timeSuffix_clean t c hc]; simp

lemma sanitize_append_timeSuffix (t2 t : Nat) (nm : List Char) :
    ∃ stem t3,
      sanitize_sheet_name t2 (nm ++ timeSuffix t) = stem ++ timeSuffix t3 := by
  simp only [sanitize_sheet_name, replaceIllegal_append, replaceIllegal_timeSuffix]
  by_cases h :
      SHEET_NAME_MAX_LENGTH < (replaceIllegal nm ++ timeSuffix t).length
  · rw [if_pos h]
    exact ⟨_, t2, rfl⟩
  · rw [if_neg h]
    exact ⟨replaceIllegal nm, t, rfl⟩

lemma collidedName_suffixed (clock : Nat → Nat) :
    ∀ (N : Nat) (nm : List Char) (k : Nat), 1 ≤ N →
      ∃ stem t, collidedName clock N nm k = stem ++ timeSuffix t := by
  intro N
  induction N with
  | zero => intro nm k h; omega
  | succ n ih =>
    intro nm k _
    rcases Nat.eq_zero_or_pos n with rfl | hn
    · simp only [collidedName]
      exact sanitize_append_timeSuffix _ _ _
    · simp only [collidedName]
      exact ih _ _ hn

/-- C6 amended: collision handling is recursive with a fresh name and a
fresh tenacity budget each time, so collisions are retried without any
3-attempt bound: if the service reports "already exists" on the first `N`
create requests and succeeds on request `N + 1` — for any `N` below the
recursion limit, in particular the claim's `N ≤ 2` — the call succeeds
after exactly `N + 1` requests with the modified name `collidedName`:
the start name sanitized and time-suffixed once per collision.  Whenever at
least one collision occurred that name is genuinely suffixed — it ends in
an underscore-plus-HHMMSS time suffix.  After three "already exists"
reports no error propagates; only non-collision errors consume the
3-attempt budget: three consecutive other errors propagate the failure
after exactly 3 requests. -/
theorem C6_amended_unbounded_collision_retry :
    (∀ (svc : Nat → CreateOutcome) (clock : Nat → Nat) (N fuel k : Nat)
       (nm : List Char),
      (∀ j, j < N → svc (k + j) = .alreadyExists) → svc (k + N) = .ok →
      N < fuel →
        (createGo svc clock fuel nm k 3).result =
          some (collidedName clock N nm k) ∧
        (createGo svc clock fuel nm k 3).calls = k + N + 1) ∧
    (∀ (clock : Nat → Nat) (N : Nat) (nm : List Char) (k : Nat), 1 ≤ N →
      ∃ stem t, collidedName clock N nm k = stem ++ timeSuffix t) ∧
    (∀ (svc : Nat → CreateOutcome) (clock : Nat → Nat) (fuel k : Nat)
       (nm : List Char),
      svc k = .otherError → svc (k + 1) = .otherError →
      svc (k + 2) = .otherError → 3 ≤ fuel →
        (createGo svc clock fuel nm k 3).result = none ∧
        (createGo svc clock fuel nm k 3).calls = k + 3) := by
  refine ⟨?_, fun clock => collidedName_suffixed clock, ?_⟩
  · intro svc clock N
    induction N with
    | zero =>
      intro fuel k nm _ hok hfuel
      obtain ⟨f, rfl⟩ : ∃ f, fuel = f + 1 := ⟨fuel - 1, by omega⟩
      rw [Nat.add_zero] at hok
      simp [createGo, hok, collidedName]
    | succ n ih =>
      intro fuel k nm hcoll hok hfuel
      obtain ⟨f, rfl⟩ : ∃ f, fuel = f + 1 := ⟨fuel - 1, by omega⟩
      have h0 : svc k = .alreadyExists := by
        have := hcoll 0 (by omega)
        simpa using this
      have hih := ih f (k + 1)
        (sanitize_sheet_name (clock k) nm ++ timeSuffix (clock k))
        (fun j hj => by
          have := hcoll (j + 1) (by omega)
          rwa [show k + (j + 1) = k + 1 + j by omega] at this)
        (by rwa [show k + 1 + n = k + (n + 1) by omega])
        (by omega)
      simp only [createGo, h0, hih.1]
      refine ⟨?_, ?_⟩
      · simp only [collidedName]
      · rw [hih.2]
        omega
  · intro svc clock fuel k nm h0 h1 h2 hfuel
    obtain ⟨f, rfl⟩ : ∃ f, fuel = f + 1 + 1 + 1 := ⟨fuel - 3, by omega⟩
    simp only [createGo, h0, h1, h2]
    norm_num

/-- C6 witness: the amended theorem applied to a service with two collisions
then success (3 requests, success with the doubly suffixed name, which ends
in a time suffix) and to a service that always reports a non-collision
error (error after exactly 3 requests). -/
theorem C6_amended_witness :
    ((createGo svcCollide2 (fun _ => 0) 5 "Sheet".toList 0 3).result =
        some (collidedName (fun _ => 0) 2 "Sheet".toList 0) ∧
     (createGo svcCollide2 (fun _ => 0) 5 "Sheet".toList 0 3).calls = 0 + 2 + 1) ∧
    (∃ stem t,
      collidedName (fun _ => 0) 2 "Sheet".toList 0 = stem ++ timeSuffix t) ∧
    ((createGo (fun _ => CreateOutcome.otherError) (fun _ => 0) 5
        "Sheet".toList 0 3).result = none ∧
     (createGo (fun _ => CreateOutcome.otherError) (fun _ => 0) 5
        "Sheet".toList 0 3).calls = 0 + 3) :=
  ⟨C6_amended_unbounded_collision_retry.1 svcCollide2 (fun _ => 0) 2 5 0
      "Sheet".toList (fun j hj => by interval_cases j <;> decide) (by decide)
      (by omega),
   C6_amended_unbounded_collision_retry.2.1 (fun _ => 0) 2 "Sheet".toList 0
      (by omega),
   C6_amended_unbounded_collision_retry.2.2 (fun _ => CreateOutcome.otherError)
      (fun _ => 0) 5 0 "Sheet".toList rfl rfl rfl (by omega)⟩

/-! ### Validation lemmas for C7 / C10 -/

lemma all_digits_iff {l : List Char} :
    allDigits l = true ↔ ∀ c ∈ l, isPyDigit c = true := by
  simp [allDigits, List.all_eq_true]

lemma concat_getLast? {l : List Char} {c : Char} :
    l.getLast? = some c ↔ ∃ l', l = l' ++ [c] := by
  constructor
  · intro h
    have hne : l ≠ [] := by rintro rfl; simp at h
    refine ⟨l.dropLast, ?_⟩
    rw [List.getLast?_eq_getLast _ hne, Option.some_inj] at h
    conv_lhs => rw [← List.dropLast_append_getLast hne]
    rw [h]
  · rintro ⟨l', rfl⟩
    exact List.getLast?_concat _

lemma pyMatchDollar_iff {core : List Char → Bool} {l : List Char} :
    pyMatchDollar core l = true ↔
      core l = true ∨ ∃ l', l = l' ++ ['\n'] ∧ core l' = true := by
  simp only [pyMatchDollar, Bool.or_eq_true, Bool.and_eq_true, decide_eq_true_eq]
  constructor
  · rintro (h | ⟨hlast, hcore⟩)
    · exact Or.inl h
    · obtain ⟨l', rfl⟩ := concat_getLast?.mp hlast
      exact Or.inr ⟨l', rfl, by rwa [List.dropLast_concat] at hcore⟩
  · rintro (h | ⟨l', rfl, hcore⟩)
    · exact Or.inl h
    · exact Or.inr ⟨concat_getLast?.mpr ⟨l', rfl⟩, by rwa [List.dropLast_concat]⟩

lemma usCore_iff {l : List Char} : usCore l = true ↔ SpecUS l := by
  simp only [usCore, Bool.and_eq_true, Bool.or_eq_true, decide_eq_true_eq,
    List.isEmpty_iff, all_digits_iff]
  constructor
  · rintro ⟨⟨h5, hd5⟩, hrest⟩
    have hlen5 : 5 ≤ l.length := by
      rw [List.length_take] at h5; omega
    rcases hrest with hnil | ⟨⟨hl5, hhead⟩, hdig⟩
    · left
      have hle : l.length ≤ 5 := List.drop_eq_nil_iff.mp hnil
      have ht : l.take 5 = l := List.take_of_length_le hle
      exact ⟨by omega, fun c hc => hd5 c (by rw [ht]; exact hc)⟩
    · right
      obtain ⟨t, ht⟩ : ∃ t, l.drop 5 = '-' :: t := by
        cases hd : l.drop 5 with
        | nil => rw [hd] at hhead; simp at hhead
        | cons x xs =>
          rw [hd] at hhead
          simp only [List.head?_cons, Option.some_inj] at hhead
          exact ⟨xs, by rw [hhead]⟩
      refine ⟨l.take 5, t, ?_, h5, ?_, hd5, ?_⟩
      · conv_lhs => rw [← List.take_append_drop 5 l]
        rw [ht]
      · rw [ht] at hl5
        simpa using hl5
      · intro c hc
        refine hdig c ?_
        rw [ht]
        simpa using hc
  · rintro (⟨hlen, hdig⟩ | ⟨a, b, rfl, ha5, hb4, hda, hdb⟩)
    · have ht : l.take 5 = l := List.take_of_length_le (by omega)
      refine ⟨⟨by rw [ht, hlen], fun c hc => hdig c (by rwa [ht] at hc)⟩,
        Or.inl (List.drop_eq_nil_iff.mpr (by omega))⟩
    · have hta : (a ++ '-' :: b).take 5 = a := by
        rw [← ha5]; exact List.take_left a _
      have hdr : (a ++ '-' :: b).drop 5 = '-' :: b := by
        rw [← ha5]; exact List.drop_left a _
      refine ⟨⟨by rw [hta, ha5], fun c hc => hda c (by rwa [hta] at hc)⟩,
        Or.inr ⟨⟨?_, ?_⟩, ?_⟩⟩
      · rw [hdr]; simp [hb4]
      · rw [hdr]; rfl
      · intro c hc
        rw [hdr] at hc
        exact hdb c (by simpa using hc)

lemma inCore_iff {l : List Char} : inCore l = true ↔ SpecIN l := by
  simp [inCore, Bool.and_eq_true, decide_eq_true_eq, all_digits_iff, SpecIN]

/-- C7 counterexample: Python's `$` matches just before a trailing newline,
so `validate_postal_code` accepts `"12345\n"` as a US postal code although it
is not exactly 5 digits (optionally hyphen and 4 digits). -/
theorem C7_counterexample :
    validate_postal_code "12345\n".toList "US".toList = true ∧
    ¬ SpecUS "12345\n".toList := by
  refine ⟨by decide, ?_⟩
  rintro (⟨h5, -⟩ | ⟨a, b, heq, ha, hb, -, -⟩)
  · have h : ("12345\n".toList).length = 6 := by decide
    omega
  · have h : ("12345\n".toList).length = 6 := by decide
    have hlen := congrArg List.length heq
    rw [h, List.length_append, List.length_cons, ha, hb] at hlen
    omega

/-- C7 amended: `validate_postal_code` accepts exactly the claimed format
*optionally followed by one trailing newline* (an artifact of Python's `$`
anchor): for `US`, 5 digits optionally followed by a hyphen and 4 digits,
and for `IN`, exactly 6 digits, in both cases with an optional final
`'\n'`. -/
theorem C7_amended_validate_iff :
    ∀ l : List Char,
      (validate_postal_code l "US".toList = true ↔
        SpecUS l ∨ ∃ l', l = l' ++ ['\n'] ∧ SpecUS l') ∧
      (validate_postal_code l "IN".toList = true ↔
        SpecIN l ∨ ∃ l', l = l' ++ ['\n'] ∧ SpecIN l') := by
  intro l
  constructor
  · rw [validate_postal_code, if_pos (by decide), pyMatchDollar_iff]
    exact or_congr usCore_iff
      (exists_congr fun l' => and_congr_right fun _ => usCore_iff)
  · rw [validate_postal_code, if_neg (by decide), pyMatchDollar_iff]
    exact or_congr inCore_iff
      (exists_congr fun l' => and_congr_right fun _ => inCore_iff)

/-- C10 counterexample: for a country the spec does not list (`FR`), the
6-digit branch applies but a trailing newline is also accepted, so
"true iff exactly 6 digits" fails. -/
theorem C10_counterexample :
    validate_postal_code "123456\n".toList "FR".toList = true ∧
    ¬ SpecIN "123456\n".toList := by
  refine ⟨by decide, ?_⟩
  rintro ⟨h6, -⟩
  have h : ("123456\n".toList).length = 7 := by decide
  omega

/-- C10 amended: for every country string other than `US`, validation uses
the 6-digit pattern — no country is rejected as unsupported — and accepts
exactly the 6-digit strings optionally followed by one trailing newline. -/
theorem C10_amended_non_us_validation :
    ∀ country : List Char, country ≠ "US".toList →
      ∀ l : List Char,
        validate_postal_code l country = true ↔
          SpecIN l ∨ ∃ l', l = l' ++ ['\n'] ∧ SpecIN l' := by
  intro country hc l
  have hus : (['U', 'S'] : List Char) = "US".toList := by decide
  rw [validate_postal_code, if_neg (fun h => hc (h.trans hus)), pyMatchDollar_iff]
  exact or_congr inCore_iff
    (exists_congr fun l' => and_congr_right fun _ => inCore_iff)

/-- C10 witness: the amended theorem applied to country `FR` and the 6-digit
code `560001`. -/
theorem C10_amended_witness :
    validate_postal_code "560001".toList "FR".toList = true :=
  (C10_amended_non_us_validation "FR".toList (by decide) "560001".toList).mpr
    (Or.inl ⟨by decide, by decide⟩)

/-! ### C3 / C2: `search_businesses` -/

/-- C3: if any postal code of the request fails validation (applied, as the
source does, to the stripped code), `search_businesses` raises the
`ValueError` before any per-postal-code search task starts: the result is an
error, and the instrumented list of postal codes for which a task ran is
empty — validation is all-or-nothing for the request. -/
theorem C3_validation_all_or_nothing :
    ∀ (env : SearchEnv) (codes kws : List (List Char)) (country : List Char)
      (m : Option Int),
      (∃ c ∈ codes, validate_postal_code (pyStrip c) country = false) →
      (∃ msg, (search_businessesT env codes kws country m).1 = .error msg) ∧
      (search_businessesT env codes kws country m).2 = [] := by
  intro env codes kws country m h
  have hsome :
      (codes.find? fun c => !(validate_postal_code (pyStrip c) country)).isSome := by
    rw [List.find?_isSome]
    obtain ⟨c, hc, hv⟩ := h
    exact ⟨c, hc, by simp [hv]⟩
  obtain ⟨bad, hbad⟩ := Option.isSome_iff_exists.mp hsome
  unfold search_businessesT
  rw [hbad]
  exact ⟨⟨invalidCodeMsg country bad, rfl⟩, rfl⟩

/-- C3 witness: the theorem applied to a concrete request whose only postal
code, `1234`, is malformed for `US`. -/
theorem C3_witness :
    (∃ msg, (search_businessesT envTrivial ["1234".toList] ["cafe".toList]
        "US".toList none).1 = .error msg) ∧
    (search_businessesT envTrivial ["1234".toList] ["cafe".toList]
        "US".toList none).2 = [] :=
  C3_validation_all_or_nothing envTrivial _ _ _ none
    ⟨"1234".toList, by decide, by decide⟩

/-- C2 counterexample: in the claimed scenario (geocoding finds no candidate
for `00000`, the task for `94105` produces two records) the function result
carries the two `94105` records together with an *empty* internal error
list: the resolution failure is only printed inside the task, so no error
list containing exactly one resolution error for `00000` exists anywhere,
let alone is returned. -/
theorem C2_counterexample :
    (search_businessesT envC2 ["00000".toList, "94105".toList]
        ["bakery".toList] "US".toList (some 5)).1 =
      .ok ([{ name := "Biz One", address := "1 First St", phone := "555-0100",
              website := "", email := "", google_maps_url := "",
              business_status := "OPERATIONAL", postal_code := "94105".toList,
              keyword := "bakery".toList },
            { name := "Biz Two", address := "2 Second St", phone := "",
              website := "", email := "", google_maps_url := "",
              business_status := "OPERATIONAL", postal_code := "94105".toList,
              keyword := "bakery".toList }], ([] : List (List Char))) ∧
    envC2.geocode (locationQuery (pyStrip "00000".toList) "US".toList) = [] :=
  ⟨rfl, rfl⟩

/-- C2 amended: `search_businesses` returns only the record list (line 343).
A postal code whose geocoding returns no candidate still gets its task run,
contributes zero records, and adds nothing to the internal `errors`
accumulator — that accumulator only collects exceptions raised by
`_search_with_timeout`, and the resolution failure is absorbed (printed)
inside the task.  With the accumulator and the task instrumentation exposed:
the result is `ok` with exactly the records of the succeeding code and an
empty error list, and a task ran for both codes. -/
theorem C2_amended_resolution_failure_swallowed :
    ∀ (env : SearchEnv) (kws : List (List Char)) (m : Option Int),
      env.geocode (locationQuery "00000".toList "US".toList) = [] →
      (search_businessesT env ["00000".toList, "94105".toList] kws
          "US".toList m).1 =
        .ok (search_with_timeout env "94105".toList kws "US".toList m, []) ∧
      (search_businessesT env ["00000".toList, "94105".toList] kws
          "US".toList m).2 = ["00000".toList, "94105".toList] := by
  intro env kws m hgeo
  have hfind : (["00000".toList, "94105".toList].find? fun c =>
      !(validate_postal_code (pyStrip c) "US".toList)) = none := by decide
  have htask0 : search_with_timeout env "00000".toList kws "US".toList m = [] := by
    unfold search_with_timeout search_task
    rw [hgeo]
  constructor <;>
    simp only [search_businessesT, hfind, List.foldl_cons, List.foldl_nil,
      show pyStrip "00000".toList = "00000".toList from rfl,
      show pyStrip "94105".toList = "94105".toList from rfl,
      htask0, List.append_nil, List.nil_append, List.cons_append]

/-- C2 witness: the amended theorem applied to the concrete oracle of the
scenario. -/
theorem C2_amended_witness :
    (search_businessesT envC2 ["00000".toList, "94105".toList]
        ["bakery".toList] "US".toList (some 5)).1 =
      .ok (search_with_timeout envC2 "94105".toList ["bakery".toList]
        "US".toList (some 5), []) ∧
    (search_businessesT envC2 ["00000".toList, "94105".toList]
        ["bakery".toList] "US".toList (some 5)).2 =
      ["00000".toList, "94105".toList] :=
  C2_amended_resolution_failure_swallowed envC2 ["bakery".toList] (some 5) rfl

/-! ### C5: correctness lemmas for the integer double-rounding model -/

lemma bitLenAux_zero (fuel : Nat) : bitLenAux fuel 0 = 0 := by
  cases fuel <;> simp [bitLenAux]

lemma bitLenAux_bracket :
    ∀ fuel n, 1 ≤ n → n ≤ fuel →
      2 ^ (bitLenAux fuel n - 1) ≤ n ∧ n < 2 ^ bitLenAux fuel n := by
  intro fuel
  induction fuel with
  | zero => intro n h1 h2; omega
  | succ f ih =>
    intro n h1 h2
    by_cases hn1 : n = 1
    · subst hn1
      have : bitLenAux (f + 1) 1 = 1 := by
        simp [bitLenAux, bitLenAux_zero]
      rw [this]
      omega
    · have hn2 : 2 ≤ n := by omega
      have hrec : bitLenAux (f + 1) n = bitLenAux f (n / 2) + 1 := by
        simp only [bitLenAux]
        rw [if_neg (by omega)]
      have ih2 := ih (n / 2) (by omega) (by omega)
      obtain ⟨K, hK⟩ : ∃ K, bitLenAux f (n / 2) = K + 1 := by
        rcases Nat.eq_zero_or_pos (bitLenAux f (n / 2)) with h0 | h0
        · rw [h0] at ih2
          simp at ih2
          omega
        · exact ⟨bitLenAux f (n / 2) - 1, by omega⟩
      rw [hK] at ih2
      rw [hrec, hK]
      simp only [Nat.add_sub_cancel] at ih2 ⊢
      have e1 : (2 : Nat) ^ (K + 1) = 2 ^ K * 2 := pow_succ 2 K
      have e2 : (2 : Nat) ^ (K + 1 + 1) = 2 ^ K * 2 * 2 := by
        rw [pow_succ, pow_succ]
      omega

lemma bitLen_bracket (n : Nat) (h : 1 ≤ n) :
    2 ^ (bitLen n - 1) ≤ n ∧ n < 2 ^ bitLen n :=
  bitLenAux_bracket n n h le_rfl

lemma qpowLe_iff (L : Int) (a b : Nat) (hb : 0 < b) :
    qpowLe L a b = true ↔ (2 : ℚ) ^ L ≤ (a : ℚ) / b := by
  have hbq : (0 : ℚ) < b := by exact_mod_cast hb
  unfold qpowLe
  split_ifs with h
  · rw [le_div_iff₀ hbq]
    rw [show (2 : ℚ) ^ L = 2 ^ L.toNat by
      rw [← zpow_natCast, Int.toNat_of_nonneg h]]
    rw [decide_eq_true_eq]
    constructor
    · intro hle
      have h2 : (2 ^ L.toNat * b : Nat) ≤ a := by rwa [Nat.mul_comm] at hle
      exact_mod_cast h2
    · intro hle
      have h2 : (2 ^ L.toNat * b : Nat) ≤ a := by exact_mod_cast hle
      rwa [Nat.mul_comm] at h2
  · push_neg at h
    have hLn : (0 : Int) ≤ -L := by omega
    have h2 : (2 : ℚ) ^ ((-L).toNat) = (2 : ℚ) ^ (-L) := by
      rw [← zpow_natCast, Int.toNat_of_nonneg hLn]
    have hp : (0 : ℚ) < (2 : ℚ) ^ (-L) := by positivity
    rw [decide_eq_true_eq]
    constructor
    · intro hle
      rw [le_div_iff₀ hbq]
      have hq : (b : ℚ) ≤ (a : ℚ) * 2 ^ (-L) := by
        rw [← h2]
        exact_mod_cast hle
      calc (2 : ℚ) ^ L * b ≤ 2 ^ L * ((a : ℚ) * 2 ^ (-L)) := by
            apply mul_le_mul_of_nonneg_left hq (by positivity)
        _ = a * (2 ^ L * 2 ^ (-L)) := by ring
        _ = a := by
            rw [← zpow_add₀ (by norm_num : (2 : ℚ) ≠ 0)]
            simp
    · intro hle
      rw [le_div_iff₀ hbq] at hle
      have hq : (b : ℚ) ≤ (a : ℚ) * 2 ^ (-L) := by
        calc (b : ℚ) = (2 ^ L * b) * 2 ^ (-L) := by
              rw [mul_comm ((2:ℚ)^L) (b:ℚ), mul_assoc,
                ← zpow_add₀ (by norm_num : (2 : ℚ) ≠ 0)]
              simp
          _ ≤ a * 2 ^ (-L) := mul_le_mul_of_nonneg_right hle (le_of_lt hp)
      rw [← h2] at hq
      exact_mod_cast hq

lemma flog2_bracket (a b : Nat) (ha : 0 < a) (hb : 0 < b) :
    (2 : ℚ) ^ flog2 a b ≤ (a : ℚ) / b ∧ (a : ℚ) / b < 2 ^ (flog2 a b + 1) := by
  have hbq : (0 : ℚ) < b := by exact_mod_cast hb
  have haq : (0 : ℚ) < a := by exact_mod_cast ha
  obtain ⟨Ka, hKa⟩ : ∃ K, bitLen a = K + 1 := by
    have := bitLen_bracket a ha
    rcases Nat.eq_zero_or_pos (bitLen a) with h0 | h0
    · rw [h0] at this; simp at this; omega
    · exact ⟨bitLen a - 1, by omega⟩
  obtain ⟨Kb, hKb⟩ : ∃ K, bitLen b = K + 1 := by
    have := bitLen_bracket b hb
    rcases Nat.eq_zero_or_pos (bitLen b) with h0 | h0
    · rw [h0] at this; simp at this; omega
    · exact ⟨bitLen b - 1, by omega⟩
  have hba := bitLen_bracket a ha
  have hbb := bitLen_bracket b hb
  rw [hKa] at hba
  rw [hKb] at hbb
  simp only [Nat.add_sub_cancel] at hba hbb
  -- hba : 2 ^ Ka ≤ a ∧ a < 2 ^ (Ka + 1), similarly for b
  have hupper : (a : ℚ) / b < 2 ^ ((Ka : Int) + 1 - Kb) := by
    have h1 : (a : ℚ) / b < (2 ^ (Ka + 1) : Nat) / ((2 ^ Kb : Nat) : ℚ) := by
      rw [div_lt_div_iff₀ hbq (by positivity)]
      have := Nat.mul_lt_mul_of_lt_of_le hba.2 hbb.1 (by positivity)
      exact_mod_cast this
    calc (a : ℚ) / b < (2 ^ (Ka + 1) : Nat) / ((2 ^ Kb : Nat) : ℚ) := h1
      _ = 2 ^ ((Ka : Int) + 1) / 2 ^ (Kb : Int) := by
          push_cast
          rw [← zpow_natCast (2:ℚ) (Ka + 1), ← zpow_natCast (2:ℚ) Kb]
          push_cast
          ring_nf
      _ = 2 ^ ((Ka : Int) + 1 - Kb) := by
          rw [← zpow_sub₀ (by norm_num : (2 : ℚ) ≠ 0)]
  have hlower : (2 : ℚ) ^ ((Ka : Int) - Kb - 1) < (a : ℚ) / b := by
    have h1 : ((2 ^ Ka : Nat) : ℚ) / ((2 ^ (Kb + 1) : Nat) : ℚ) < (a : ℚ) / b := by
      rw [div_lt_div_iff₀ (by positivity) hbq]
      have := Nat.mul_lt_mul_of_le_of_lt hba.1 hbb.2 (by omega)
      exact_mod_cast this
    calc (2 : ℚ) ^ ((Ka : Int) - Kb - 1)
        = 2 ^ (Ka : Int) / 2 ^ ((Kb : Int) + 1) := by
          rw [← zpow_sub₀ (by norm_num : (2 : ℚ) ≠ 0)]
          congr 1
          omega
      _ = ((2 ^ Ka : Nat) : ℚ) / ((2 ^ (Kb + 1) : Nat) : ℚ) := by
          push_cast
          rw [← zpow_natCast (2:ℚ) Ka, ← zpow_natCast (2:ℚ) (Kb + 1)]
          push_cast
          ring_nf
      _ < (a : ℚ) / b := h1
  have hLval : ((bitLen a : Int) - (bitLen b : Int)) = (Ka : Int) - Kb := by
    rw [hKa, hKb]
    push_cast
    ring
  unfold flog2
  rw [hLval]
  by_cases hq : qpowLe ((Ka : Int) - Kb) a b = true
  · rw [if_pos hq]
    refine ⟨(qpowLe_iff _ _ _ hb).mp hq, ?_⟩
    have : (Ka : Int) - Kb + 1 = (Ka : Int) + 1 - Kb := by omega
    rw [this]
    exact hupper
  · rw [if_neg hq]
    have hnot : ¬ (2 : ℚ) ^ ((Ka : Int) - Kb) ≤ (a : ℚ) / b := by
      intro hcon
      exact hq ((qpowLe_iff _ _ _ hb).mpr hcon)
    push_neg at hnot
    constructor
    · have : (Ka : Int) - Kb - 1 = (Ka : Int) - Kb - 1 := rfl
      exact le_of_lt hlower
    · have : (Ka : Int) - Kb - 1 + 1 = (Ka : Int) - Kb := by omega
      rw [this]
      exact hnot

lemma rheQ_ge_floor (x : ℚ) : ⌊x⌋ ≤ rheQ x := by
  unfold rheQ
  split_ifs <;> omega

lemma rheQ_le_floor_add_one (x : ℚ) : rheQ x ≤ ⌊x⌋ + 1 := by
  unfold rheQ
  split_ifs <;> omega

lemma rheQ_mono {x y : ℚ} (h : x ≤ y) : rheQ x ≤ rheQ y := by
  rcases lt_or_le ⌊x⌋ ⌊y⌋ with hf | hf
  · calc rheQ x ≤ ⌊x⌋ + 1 := rheQ_le_floor_add_one x
      _ ≤ ⌊y⌋ := by omega
      _ ≤ rheQ y := rheQ_ge_floor y
  · have hfe : ⌊x⌋ = ⌊y⌋ := le_antisymm (Int.floor_le_floor h) hf
    have hxy : x - (⌊y⌋ : ℚ) ≤ y - (⌊y⌋ : ℚ) := by linarith
    unfold rheQ
    rw [hfe]
    split_ifs <;> first | omega | linarith

lemma rheN_eq_rheQ (a b : Nat) (hb : 0 < b) :
    (rheN a b : ℤ) = rheQ ((a : ℚ) / b) := by
  have hbq : (0 : ℚ) < b := by exact_mod_cast hb
  have hfl : ⌊(a : ℚ) / b⌋ = ((a / b : ℕ) : ℤ) := by
    have h1 := Rat.floor_intCast_div_natCast (a : ℤ) b
    have h2 : (((a : ℤ) : ℚ)) = (a : ℚ) := by push_cast; ring
    rw [h2] at h1
    rw [h1]
    exact (Int.ofNat_div a b).symm
  have hfr : (a : ℚ) / b - ((a / b : ℕ) : ℚ) = ((a % b : ℕ) : ℚ) / b := by
    have hmod : b * (a / b) + a % b = a := Nat.div_add_mod a b
    have hq : ((b * (a / b) + a % b : ℕ) : ℚ) = (a : ℚ) := by exact_mod_cast congrArg Nat.cast hmod
    push_cast at hq
    field_simp
    linarith
  have hc1 : (((a % b : ℕ) : ℚ) / b < 1 / 2) ↔ 2 * (a % b) < b := by
    rw [div_lt_div_iff₀ hbq (by norm_num : (0 : ℚ) < 2), one_mul]
    constructor
    · intro hlt
      have : (a % b) * 2 < b := by exact_mod_cast hlt
      omega
    · intro hlt
      have : (a % b) * 2 < b := by omega
      exact_mod_cast this
  have hc2 : ((1 : ℚ) / 2 < ((a % b : ℕ) : ℚ) / b) ↔ b < 2 * (a % b) := by
    rw [div_lt_div_iff₀ (by norm_num : (0 : ℚ) < 2) hbq, one_mul]
    constructor
    · intro hlt
      have : b < (a % b) * 2 := by exact_mod_cast hlt
      omega
    · intro hlt
      have : b < (a % b) * 2 := by omega
      exact_mod_cast this
  have hc3 : ((2 : ℤ) ∣ ((a / b : ℕ) : ℤ)) ↔ (a / b) % 2 = 0 := by omega
  simp only [rheN, rheQ, hfl, Int.cast_natCast, hfr, hc1, hc2, hc3]
  split_ifs <;> push_cast <;> omega

lemma shiftNum_den_pos (a b : Nat) (p : Int) (hb : 0 < b) :
    0 < (shiftNum a b p).2 := by
  unfold shiftNum
  split_ifs <;> simp only
  · exact hb
  · exact Nat.mul_pos hb (Nat.pos_pow_of_pos _ (by norm_num))

lemma shiftNum_num_pos (a b : Nat) (p : Int) (ha : 0 < a) :
    0 < (shiftNum a b p).1 := by
  unfold shiftNum
  split_ifs <;> simp only
  · exact Nat.mul_pos ha (Nat.pos_pow_of_pos _ (by norm_num))
  · exact ha

lemma shiftNum_val (a b : Nat) (p : Int) (hb : 0 < b) :
    ((shiftNum a b p).1 : ℚ) / ((shiftNum a b p).2 : ℚ) = (a : ℚ) / b * 2 ^ p := by
  have hbq : (0 : ℚ) < b := by exact_mod_cast hb
  unfold shiftNum
  split_ifs with h
  · simp only
    push_cast
    rw [show (2 : ℚ) ^ p = 2 ^ p.toNat from by
      rw [← zpow_natCast, Int.toNat_of_nonneg h]]
    ring
  · simp only
    have h2 : ((2 : ℚ) ^ ((-p).toNat)) = (2 : ℚ) ^ (-p) := by
      rw [← zpow_natCast, Int.toNat_of_nonneg (by omega)]
    push_cast
    rw [h2, zpow_neg]
    have hp0 : (2 : ℚ) ^ p ≠ 0 := zpow_ne_zero _ (by norm_num)
    field_simp

lemma rdN_val (a b : Nat) (ha : 0 < a) (hb : 0 < b) :
    val (rdN a b).1 (rdN a b).2 =
      (rheQ ((a : ℚ) / b * 2 ^ ((52 : Int) - flog2 a b)) : ℚ) *
        2 ^ (flog2 a b - 52) := by
  have hne : ¬ a = 0 := by omega
  have hden := shiftNum_den_pos a b (52 - flog2 a b) hb
  have hkey := rheN_eq_rheQ (shiftNum a b (52 - flog2 a b)).1
    (shiftNum a b (52 - flog2 a b)).2 hden
  have hcast :
      ((rheN (shiftNum a b (52 - flog2 a b)).1 (shiftNum a b (52 - flog2 a b)).2 : ℕ) : ℚ) =
        ((rheQ (((shiftNum a b (52 - flog2 a b)).1 : ℚ) /
          ((shiftNum a b (52 - flog2 a b)).2 : ℚ)) : ℤ) : ℚ) := by
    exact_mod_cast congrArg (fun z : ℤ => (z : ℚ)) hkey
  simp only [rdN, hne, if_false, val]
  rw [hcast, shiftNum_val a b _ hb]

lemma rdN_bounds (a b : Nat) (ha : 0 < a) (hb : 0 < b) :
    (2 : ℚ) ^ flog2 a b ≤ val (rdN a b).1 (rdN a b).2 ∧
      val (rdN a b).1 (rdN a b).2 ≤ 2 ^ (flog2 a b + 1) := by
  obtain ⟨hlo, hhi⟩ := flog2_bracket a b ha hb
  have h2ne : (2 : ℚ) ≠ 0 := by norm_num
  have hpos : (0 : ℚ) < 2 ^ ((52 : Int) - flog2 a b) := by positivity
  have hs_lo : (2 : ℚ) ^ (52 : Int) ≤ (a : ℚ) / b * 2 ^ ((52 : Int) - flog2 a b) := by
    calc (2 : ℚ) ^ (52 : Int) = 2 ^ flog2 a b * 2 ^ ((52 : Int) - flog2 a b) := by
          rw [← zpow_add₀ h2ne]; congr 1; omega
      _ ≤ (a : ℚ) / b * 2 ^ ((52 : Int) - flog2 a b) :=
          mul_le_mul_of_nonneg_right hlo (le_of_lt hpos)
  have hs_hi : (a : ℚ) / b * 2 ^ ((52 : Int) - flog2 a b) < 2 ^ (53 : Int) := by
    calc (a : ℚ) / b * 2 ^ ((52 : Int) - flog2 a b)
        < 2 ^ (flog2 a b + 1) * 2 ^ ((52 : Int) - flog2 a b) :=
          mul_lt_mul_of_pos_right hhi hpos
      _ = 2 ^ (53 : Int) := by rw [← zpow_add₀ h2ne]; congr 1; omega
  have hfl_lo : ((2 : ℤ) ^ (52 : ℕ)) ≤ ⌊(a : ℚ) / b * 2 ^ ((52 : Int) - flog2 a b)⌋ := by
    rw [Int.le_floor]
    calc (((2 : ℤ) ^ (52 : ℕ) : ℤ) : ℚ) = 2 ^ (52 : Int) := by norm_num
      _ ≤ _ := hs_lo
  have hfl_hi : ⌊(a : ℚ) / b * 2 ^ ((52 : Int) - flog2 a b)⌋ < (2 : ℤ) ^ (53 : ℕ) := by
    rw [Int.floor_lt]
    calc (a : ℚ) / b * 2 ^ ((52 : Int) - flog2 a b) < 2 ^ (53 : Int) := hs_hi
      _ = (((2 : ℤ) ^ (53 : ℕ) : ℤ) : ℚ) := by norm_num
  have hq_lo : ((2 : ℤ) ^ (52 : ℕ)) ≤ rheQ ((a : ℚ) / b * 2 ^ ((52 : Int) - flog2 a b)) :=
    le_trans hfl_lo (rheQ_ge_floor _)
  have hq_hi : rheQ ((a : ℚ) / b * 2 ^ ((52 : Int) - flog2 a b)) ≤ (2 : ℤ) ^ (53 : ℕ) :=
    le_trans (rheQ_le_floor_add_one _) (by omega)
  rw [rdN_val a b ha hb]
  have hqcast_lo : (2 : ℚ) ^ (52 : Int) ≤
      ((rheQ ((a : ℚ) / b * 2 ^ ((52 : Int) - flog2 a b)) : ℤ) : ℚ) := by
    calc (2 : ℚ) ^ (52 : Int) = (((2 : ℤ) ^ (52 : ℕ) : ℤ) : ℚ) := by norm_num
      _ ≤ _ := by exact_mod_cast hq_lo
  have hqcast_hi : ((rheQ ((a : ℚ) / b * 2 ^ ((52 : Int) - flog2 a b)) : ℤ) : ℚ) ≤
      (2 : ℚ) ^ (53 : Int) := by
    calc ((rheQ ((a : ℚ) / b * 2 ^ ((52 : Int) - flog2 a b)) : ℤ) : ℚ)
        ≤ (((2 : ℤ) ^ (53 : ℕ) : ℤ) : ℚ) := by exact_mod_cast hq_hi
      _ = (2 : ℚ) ^ (53 : Int) := by norm_num
  have hposc : (0 : ℚ) < 2 ^ (flog2 a b - 52) := by positivity
  constructor
  · calc (2 : ℚ) ^ flog2 a b = 2 ^ ((52 : Int) + (flog2 a b - 52)) := by
          rw [show (52 : Int) + (flog2 a b - 52) = flog2 a b by omega]
      _ = 2 ^ (52 : Int) * 2 ^ (flog2 a b - 52) := zpow_add₀ h2ne _ _
      _ ≤ _ := mul_le_mul_of_nonneg_right hqcast_lo (le_of_lt hposc)
  · calc ((rheQ ((a : ℚ) / b * 2 ^ ((52 : Int) - flog2 a b)) : ℤ) : ℚ) *
        2 ^ (flog2 a b - 52)
        ≤ 2 ^ (53 : Int) * 2 ^ (flog2 a b - 52) :=
          mul_le_mul_of_nonneg_right hqcast_hi (le_of_lt hposc)
      _ = 2 ^ ((53 : Int) + (flog2 a b - 52)) := (zpow_add₀ h2ne _ _).symm
      _ = 2 ^ (flog2 a b + 1) := by
          rw [show (53 : Int) + (flog2 a b - 52) = flog2 a b + 1 by omega]

lemma rdN_val_pos (a b : Nat) (ha : 0 < a) (hb : 0 < b) :
    (0 : ℚ) < val (rdN a b).1 (rdN a b).2 :=
  lt_of_lt_of_le (by positivity) (rdN_bounds a b ha hb).1

lemma rdN_fst_pos (a b : Nat) (ha : 0 < a) (hb : 0 < b) :
    0 < (rdN a b).1 := by
  by_contra h
  push_neg at h
  have hz : (rdN a b).1 = 0 := by omega
  have := rdN_val_pos a b ha hb
  rw [val, hz] at this
  simp at this

lemma rdN_mono {a1 b1 a2 b2 : Nat} (ha1 : 0 < a1) (hb1 : 0 < b1)
    (ha2 : 0 < a2) (hb2 : 0 < b2) (h : (a1 : ℚ) / b1 ≤ (a2 : ℚ) / b2) :
    val (rdN a1 b1).1 (rdN a1 b1).2 ≤ val (rdN a2 b2).1 (rdN a2 b2).2 := by
  obtain ⟨hl1, hh1⟩ := flog2_bracket a1 b1 ha1 hb1
  obtain ⟨hl2, hh2⟩ := flog2_bracket a2 b2 ha2 hb2
  have he : flog2 a1 b1 ≤ flog2 a2 b2 := by
    have hlt : (2 : ℚ) ^ flog2 a1 b1 < 2 ^ (flog2 a2 b2 + 1) :=
      lt_of_le_of_lt (le_trans hl1 h) hh2
    have := (zpow_lt_zpow_iff_right₀ (by norm_num : (1 : ℚ) < 2)).mp hlt
    omega
  rcases eq_or_lt_of_le he with heq | hlt
  · rw [rdN_val a1 b1 ha1 hb1, rdN_val a2 b2 ha2 hb2, heq]
    apply mul_le_mul_of_nonneg_right _ (by positivity)
    have harg : (a1 : ℚ) / b1 * 2 ^ ((52 : Int) - flog2 a2 b2) ≤
        (a2 : ℚ) / b2 * 2 ^ ((52 : Int) - flog2 a2 b2) :=
      mul_le_mul_of_nonneg_right h (by positivity)
    exact_mod_cast rheQ_mono harg
  · calc val (rdN a1 b1).1 (rdN a1 b1).2 ≤ 2 ^ (flog2 a1 b1 + 1) :=
        (rdN_bounds a1 b1 ha1 hb1).2
      _ ≤ 2 ^ flog2 a2 b2 := zpow_le_zpow_right₀ (by norm_num) (by omega)
      _ ≤ val (rdN a2 b2).1 (rdN a2 b2).2 := (rdN_bounds a2 b2 ha2 hb2).1

lemma truncScaled_eq_floor (k : Nat) (t : Int) :
    truncScaled k t = ⌊val k t⌋₊ := by
  unfold truncScaled val
  split_ifs with h
  · rw [show (k : ℚ) * 2 ^ t = ((k * 2 ^ t.toNat : ℕ) : ℚ) from by
      push_cast
      rw [← zpow_natCast (2 : ℚ) t.toNat, Int.toNat_of_nonneg h]]
    rw [Nat.floor_natCast]
  · have h2 : ((2 : ℚ) ^ ((-t).toNat)) = (2 : ℚ) ^ (-t) := by
      rw [← zpow_natCast, Int.toNat_of_nonneg (by omega)]
    rw [show (k : ℚ) * 2 ^ t = (k : ℚ) / ((2 ^ (-t).toNat : ℕ) : ℚ) from by
      push_cast
      rw [h2, div_eq_mul_inv, ← zpow_neg, neg_neg]]
    rw [Nat.floor_div_nat, Nat.floor_natCast]

lemma pyScaledTimeout_mono {m1 m2 : Nat} (h1 : 0 < m1) (h : m1 ≤ m2) :
    pyScaledTimeout m1 ≤ pyScaledTimeout m2 := by
  have h2 : 0 < m2 := by omega
  have hmq : (m1 : ℚ) / 20 ≤ (m2 : ℚ) / 20 := by
    have hc : (m1 : ℚ) ≤ (m2 : ℚ) := Nat.cast_le.mpr h
    gcongr
  have hd : val (rdN m1 20).1 (rdN m1 20).2 ≤ val (rdN m2 20).1 (rdN m2 20).2 :=
    rdN_mono h1 (by norm_num) h2 (by norm_num) hmq
  have hk1 : 0 < (rdN m1 20).1 := rdN_fst_pos m1 20 h1 (by norm_num)
  have hk2 : 0 < (rdN m2 20).1 := rdN_fst_pos m2 20 h2 (by norm_num)
  have hval1 : ((shiftNum ((rdN m1 20).1 * 60) 1 (rdN m1 20).2).1 : ℚ) /
      ((shiftNum ((rdN m1 20).1 * 60) 1 (rdN m1 20).2).2 : ℚ) =
      60 * val (rdN m1 20).1 (rdN m1 20).2 := by
    rw [shiftNum_val _ _ _ (by norm_num), val]
    push_cast
    ring
  have hval2 : ((shiftNum ((rdN m2 20).1 * 60) 1 (rdN m2 20).2).1 : ℚ) /
      ((shiftNum ((rdN m2 20).1 * 60) 1 (rdN m2 20).2).2 : ℚ) =
      60 * val (rdN m2 20).1 (rdN m2 20).2 := by
    rw [shiftNum_val _ _ _ (by norm_num), val]
    push_cast
    ring
  have hPle : ((shiftNum ((rdN m1 20).1 * 60) 1 (rdN m1 20).2).1 : ℚ) /
      ((shiftNum ((rdN m1 20).1 * 60) 1 (rdN m1 20).2).2 : ℚ) ≤
      ((shiftNum ((rdN m2 20).1 * 60) 1 (rdN m2 20).2).1 : ℚ) /
      ((shiftNum ((rdN m2 20).1 * 60) 1 (rdN m2 20).2).2 : ℚ) := by
    rw [hval1, hval2]
    linarith
  have hfin := rdN_mono
    (shiftNum_num_pos _ _ _ (Nat.mul_pos hk1 (by norm_num)))
    (shiftNum_den_pos _ _ _ (by norm_num))
    (shiftNum_num_pos _ _ _ (Nat.mul_pos hk2 (by norm_num)))
    (shiftNum_den_pos _ _ _ (by norm_num))
    hPle
  simp only [pyScaledTimeout]
  rw [truncScaled_eq_floor, truncScaled_eq_floor]
  exact Nat.floor_mono hfin

/-- C5: the timeout planner `_calculate_timeout` is monotonic non-decreasing
on positive max-results (for missing, zero, or negative arguments the
fallback stated below applies before scaling), always positive, bounded
above by the 300 ceiling, equals the 60 base at the 20-result reference
point, and for missing, zero, or negative max-results falls back to the
reference count 20 before scaling.  The Python float arithmetic of
`int((max_results / 20) * 60)` is modelled exactly by `pyScaledTimeout`. -/
theorem C5_timeout_planner :
    (∀ a b : Int, 0 < a → a ≤ b →
      calculate_timeout (some a) ≤ calculate_timeout (some b)) ∧
    (∀ m : Option Int, 0 < calculate_timeout m) ∧
    (∀ m : Option Int, calculate_timeout m ≤ MAX_SEARCH_TIMEOUT) ∧
    calculate_timeout (some DEFAULT_MAX_RESULTS) = BASE_SEARCH_TIMEOUT ∧
    calculate_timeout none = calculate_timeout (some DEFAULT_MAX_RESULTS) ∧
    (∀ v : Int, v ≤ 0 →
      calculate_timeout (some v) = calculate_timeout (some DEFAULT_MAX_RESULTS)) := by
  have hpos_val : ∀ v : Int, 0 < v → 3 ≤ pyScaledTimeout v.toNat := by
    intro v hv
    have h1 : (1 : Nat) ≤ v.toNat := by omega
    calc (3 : Nat) = pyScaledTimeout 1 := by decide
      _ ≤ pyScaledTimeout v.toNat := pyScaledTimeout_mono (by norm_num) h1
  refine ⟨?_, ?_, ?_, by decide, by decide, ?_⟩
  · intro a b ha hab
    simp only [calculate_timeout]
    rw [if_neg (by omega : ¬ a ≤ 0), if_neg (by omega : ¬ b ≤ 0)]
    have hmono : pyScaledTimeout a.toNat ≤ pyScaledTimeout b.toNat :=
      pyScaledTimeout_mono (by omega) (by omega)
    exact min_le_min (by exact_mod_cast hmono) le_rfl
  · intro m
    match m with
    | none => decide
    | some v =>
      by_cases hv : v ≤ 0
      · simp only [calculate_timeout]
        rw [if_pos hv]
        decide
      · simp only [calculate_timeout]
        rw [if_neg hv]
        have h3 : (3 : Int) ≤ (pyScaledTimeout v.toNat : Int) := by
          exact_mod_cast hpos_val v (by omega)
        exact lt_min (by omega) (by decide)
  · intro m
    simp only [calculate_timeout]
    exact min_le_right _ _
  · intro v hv
    simp only [calculate_timeout]
    rw [if_pos hv]
    decide

/-- C5 witness: the theorem applied at the concrete arguments 5 ≤ 50, 30,
and -2. -/
theorem C5_witness :
    calculate_timeout (some 5) ≤ calculate_timeout (some 50) ∧
    0 < calculate_timeout (some 30) ∧
    calculate_timeout (some 30) ≤ MAX_SEARCH_TIMEOUT ∧
    calculate_timeout (some (-2)) = calculate_timeout (some DEFAULT_MAX_RESULTS) :=
  ⟨C5_timeout_planner.1 5 50 (by norm_num) (by norm_num),
   C5_timeout_planner.2.1 (some 30),
   C5_timeout_planner.2.2.1 (some 30),
   C5_timeout_planner.2.2.2.2.2 (-2) (by norm_num)⟩

end BF

